import Mathlib

/-!
Shallow embedding of the `ar-OS/vga` crate (files `src/color.rs`,
`src/buffer.rs`).

The VGA text buffer is modelled as a total function from (row, column) to
cells; a cell is a pair of the displayed byte and its color byte, both kept
as `Nat` (no arithmetic on them ever reaches 8 bits of overflow).  Rust
array indexing `content[row][col]` is bounds-checked and panics when out of
range, so the cell store is modelled as an `Option`-returning operation and
every state-changing `Writer` method is `Option`-valued; `none` models the
Rust panic.
-/

namespace VGA

/-- Line length, constant `BUFFER_LENGTH` from `buffer.rs`. -/
def BUFFER_LENGTH : Nat := 80

/-- Number of lines, constant `BUFFER_HEIGHT` from `buffer.rs`. -/
def BUFFER_HEIGHT : Nat := 24

/-- The `Color` enum from `color.rs`: the 16 VGA colors. -/
inductive Color where
  | Black
  | Blue
  | Green
  | Cyan
  | Red
  | Magenta
  | Brown
  | Gray
  | DarkGray
  | BrightBlue
  | BrightGreen
  | BrightCyan
  | BrightRed
  | BrightMagenta
  | Yellow
  | White
deriving DecidableEq

/-- Discriminant value of each `Color` variant, as fixed in `color.rs`
(the value of the Rust cast `color as u8`). -/
def Color.toU8 : Color → Nat
  | .Black => 0x0
  | .Blue => 0x1
  | .Green => 0x2
  | .Cyan => 0x3
  | .Red => 0x4
  | .Magenta => 0x5
  | .Brown => 0x6
  | .Gray => 0x7
  | .DarkGray => 0x8
  | .BrightBlue => 0x9
  | .BrightGreen => 0xA
  | .BrightCyan => 0xB
  | .BrightRed => 0xC
  | .BrightMagenta => 0xD
  | .Yellow => 0xE
  | .White => 0xF

/-- Type of the `ColorCode` tuple struct from `color.rs`: a single `u8`,
kept as a `Nat` (its value is always below 256). -/
abbrev ColorCode := Nat

/-- Constructor `ColorCode::new` from `color.rs`:
`ColorCode((background as u8) << 4 | (foreground as u8))`.
The operands are at most `0xF0` and `0xF`, so the `u8` arithmetic never
wraps and plain `Nat` arithmetic is faithful. -/
def ColorCode.new (foreground background : Color) : ColorCode :=
  background.toU8 <<< 4 ||| foreground.toU8

/-- The `impl Default for ColorCode` from `color.rs`: green foreground on a
black background. -/
def ColorCode.default : ColorCode :=
  ColorCode.new Color.Green Color.Black

/-- Cell type `type Char = (u8, ColorCode)` from `buffer.rs`: the byte to
display and its color. -/
abbrev Char := Nat × ColorCode

/-- The `content` array of `Buffer` from `buffer.rs`, modelled as a total
function; only indices with row below `BUFFER_HEIGHT` and column below
`BUFFER_LENGTH` exist in the Rust array. -/
abbrev Grid := Nat → Nat → Char

/-- One store `self.buffer().content[row][col].write(cell)` from
`buffer.rs`.  Rust array indexing is bounds-checked: an out-of-range `row`
or `col` panics, modelled by `none`. -/
def write_cell (g : Grid) (row col : Nat) (cell : Char) : Option Grid :=
  if row < BUFFER_HEIGHT ∧ col < BUFFER_LENGTH then
    some (fun r c => if r = row ∧ c = col then cell else g r c)
  else
    none

/-- The `Writer` struct from `buffer.rs`.  The `buffer: Unique<Buffer>`
pointer is modelled by the pointed-to grid itself. -/
structure Writer where
  grid : Grid
  color_code : ColorCode
  column_position : Nat
  row_position : Nat

/-- Method `Writer::new_line` from `buffer.rs`:
`if self.row_position < BUFFER_HEIGHT { self.row_position += 1; }` followed
by `self.column_position = 0`. -/
def Writer.new_line (w : Writer) : Writer :=
  { w with
    row_position :=
      if w.row_position < BUFFER_HEIGHT then w.row_position + 1
      else w.row_position
    column_position := 0 }

/-- Method `Writer::write_byte` from `buffer.rs`.  The locals `row`, `col`
and `color_code` are read before the match, exactly as in the source; the
store at the end uses those captured values even when the
`column_position >= BUFFER_LENGTH` branch has called `new_line`.  The match
`char::from(byte)` against the newline character holds exactly for
byte 10. -/
def Writer.write_byte (w : Writer) (byte : Nat) : Option Writer :=
  let row := w.row_position
  let col := w.column_position
  let color_code := w.color_code
  if byte = 10 then
    some w.new_line
  else
    let w1 := if BUFFER_LENGTH ≤ w.column_position then w.new_line else w
    (write_cell w1.grid row col (byte, color_code)).map fun g =>
      { w1 with grid := g, column_position := w1.column_position + 1 }

/-- Iteration of `write_byte` over a byte sequence in order (the loop body
of `Writer::write_str`). -/
def Writer.write_bytes (w : Writer) (bs : List Nat) : Option Writer :=
  match bs with
  | [] => some w
  | b :: rest => (w.write_byte b).bind fun w1 => w1.write_bytes rest

/-- The `fmt::Write::write_str` implementation for `Writer` from
`buffer.rs`: writes every byte of the string in order via `write_byte`,
then returns `Ok(())`.  The Rust type `fmt::Result = Result<(), fmt::Error>`
is modelled as `Except Unit Unit`. -/
def Writer.write_str (w : Writer) (s : List Nat) : Option (Writer × Except Unit Unit) :=
  match s with
  | [] => some (w, Except.ok ())
  | b :: rest => (w.write_byte b).bind fun w1 => w1.write_str rest

/-- Inner loop of `Writer::clear`:
`for col in 0..n { content[row][col].write((b' ', color)) }`, encoded by
recursion on the exclusive upper bound `n` (column `n - 1` is written
last). -/
def clear_cols (color : ColorCode) (row : Nat) (og : Option Grid) : Nat → Option Grid
  | 0 => og
  | n + 1 => (clear_cols color row og n).bind fun g => write_cell g row n (32, color)

/-- Outer loop of `Writer::clear`:
`for row in 0..m { for col in 0..BUFFER_LENGTH { ... } }`, encoded by
recursion on the exclusive upper bound `m`. -/
def clear_rows (color : ColorCode) (og : Option Grid) : Nat → Option Grid
  | 0 => og
  | m + 1 => clear_cols color m (clear_rows color og m) BUFFER_LENGTH

/-- Method `Writer::clear` from `buffer.rs`: writes `(b' ', color_code)`
into every cell, row by row and column by column.  It touches no cursor
field. -/
def Writer.clear (w : Writer) : Option Writer :=
  (clear_rows w.color_code (some w.grid) BUFFER_HEIGHT).map fun g =>
    { w with grid := g }

/-- The grid contents at the VGA address are hardware state; for concrete
evaluations we take a blank screen. -/
def init_grid : Grid := fun _ _ => (32, ColorCode.default)

/-- The static `BUF_WRITER` from `buffer.rs`: default color, cursor at
`(0, 0)`. -/
def BUF_WRITER : Writer :=
  { grid := init_grid
    color_code := ColorCode.default
    column_position := 0
    row_position := 0 }

/-- Helper: behaviour of `write_byte` on a non-newline byte when the cursor
is strictly in range.  The cell at the cursor gets the byte with the
current color and the column advances by one. -/
theorem write_byte_in_range (w : Writer) (b : Nat) (hb : b ≠ 10)
    (hc : w.column_position < BUFFER_LENGTH) (hr : w.row_position < BUFFER_HEIGHT) :
    w.write_byte b = some { w with
      grid := fun r c =>
        if r = w.row_position ∧ c = w.column_position then (b, w.color_code)
        else w.grid r c
      column_position := w.column_position + 1 } := by
  unfold Writer.write_byte write_cell
  simp only [if_neg hb, if_neg (Nat.not_le.mpr hc),
    if_pos (⟨hr, hc⟩ : w.row_position < BUFFER_HEIGHT ∧ w.column_position < BUFFER_LENGTH)]
  rfl

/-- Helper: writing a newline-free byte list that fits in the current row
succeeds, leaves the row and color unchanged, advances the column by the
list length, and lays the bytes down contiguously from the start column. -/
theorem write_bytes_in_row (s : List Nat) :
    ∀ (g : Grid) (color col row : Nat),
    (∀ b ∈ s, b ≠ 10) →
    col + s.length ≤ BUFFER_LENGTH →
    row < BUFFER_HEIGHT →
    ∃ g1, (Writer.mk g color col row).write_bytes s
        = some (Writer.mk g1 color (col + s.length) row) ∧
      ∀ r c, g1 r c =
        if r = row ∧ col ≤ c ∧ c < col + s.length
        then (s.getD (c - col) 0, color)
        else g r c := by
  induction s with
  | nil =>
    intro g color col row _ _ _
    refine ⟨g, rfl, ?_⟩
    intro r c
    rw [if_neg]
    rintro ⟨-, h1, h2⟩
    simp only [List.length_nil] at h2
    omega
  | cons b rest ih =>
    intro g color col row hnl hlen hrow
    have hb : b ≠ 10 := hnl b (List.mem_cons_self b rest)
    have hc : col < BUFFER_LENGTH := by
      simp only [List.length_cons] at hlen; omega
    rw [Writer.write_bytes,
      write_byte_in_range (Writer.mk g color col row) b hb hc hrow,
      Option.some_bind]
    obtain ⟨g1, h1, h2⟩ :=
      ih (fun r c => if r = row ∧ c = col then (b, color) else g r c) color (col + 1) row
        (fun x hx => hnl x (List.mem_cons_of_mem b hx))
        (by simp only [List.length_cons] at hlen; omega)
        hrow
    have hcl : col + 1 + rest.length = col + (b :: rest).length := by
      simp only [List.length_cons]; omega
    refine ⟨g1, ?_, ?_⟩
    · rw [← hcl]
      exact h1
    · intro r c
      have e1 := h2 r c
      by_cases hr : r = row
      · subst hr
        rw [e1]
        simp only [eq_self_iff_true, true_and, List.length_cons]
        split_ifs with h1i h2i h3i h4i h5i
        · have hsub : c - col = c - (col + 1) + 1 := by omega
          rw [hsub, List.getD_cons_succ]
        · exfalso; omega
        · have hz : c - col = 0 := by omega
          rw [hz, List.getD_cons_zero]
        · exfalso; omega
        · exfalso; omega
        · rfl
      · rw [e1, if_neg (by tauto), if_neg (by tauto), if_neg (by tauto)]

/-- Helper: effect of the inner clear loop on the grid, columns below the
bound blanked in the given row. -/
theorem clear_cols_eq (color row : Nat) (g : Grid) (hrow : row < BUFFER_HEIGHT) :
    ∀ n, n ≤ BUFFER_LENGTH →
    clear_cols color row (some g) n =
      some (fun r c => if r = row ∧ c < n then (32, color) else g r c) := by
  intro n
  induction n with
  | zero =>
    intro _
    rw [clear_cols]
    congr 1
    funext r c
    rw [if_neg]
    rintro ⟨-, h⟩
    omega
  | succ n ihn =>
    intro hn
    rw [clear_cols, ihn (by omega), Option.some_bind, write_cell,
      if_pos (⟨hrow, by omega⟩ : row < BUFFER_HEIGHT ∧ n < BUFFER_LENGTH)]
    congr 1
    funext r c
    by_cases hr : r = row
    · subst hr
      simp only [eq_self_iff_true, true_and]
      split_ifs <;> first | rfl | (exfalso; omega)
    · simp only [hr, false_and, if_false]

/-- Helper: effect of the outer clear loop on the grid, all rows below the
bound blanked. -/
theorem clear_rows_eq (color : Nat) (g : Grid) :
    ∀ m, m ≤ BUFFER_HEIGHT →
    clear_rows color (some g) m =
      some (fun r c => if r < m ∧ c < BUFFER_LENGTH then (32, color) else g r c) := by
  intro m
  induction m with
  | zero =>
    intro _
    rfl
  | succ m ihm =>
    intro hm
    rw [clear_rows, ihm (by omega),
      clear_cols_eq color m _ (by omega) BUFFER_LENGTH (Nat.le_refl _)]
    congr 1
    funext r c
    by_cases hcc : c < BUFFER_LENGTH
    · simp only [hcc, and_true]
      split_ifs <;> first | rfl | (exfalso; omega)
    · simp only [hcc, and_false, if_false]

/-- Helper: `clear` always succeeds, blanks every in-range cell with the
current color, and changes no other field of the writer. -/
theorem clear_eq (w : Writer) :
    w.clear = some { w with grid :=
      (fun r c =>
        if r < BUFFER_HEIGHT ∧ c < BUFFER_LENGTH then (32, w.color_code)
        else w.grid r c) } := by
  rw [Writer.clear, clear_rows_eq w.color_code w.grid BUFFER_HEIGHT (Nat.le_refl _)]
  rfl

/-- C1: the claim says every Grid index the Writer issues is in range and
the out-of-range branch of the bounds-checked access is unreachable.  It is
reachable: from the initial writer, 24 newline bytes drive `row_position`
to 24 and the next `write_byte` indexes grid row 24 = `BUFFER_HEIGHT`, so
the bounds check fails (`none`, a Rust panic), while the 24 newlines alone
succeed. -/
theorem writer_issues_out_of_range_row_index :
    (BUF_WRITER.write_bytes (List.replicate 24 10)).isSome = true ∧
    BUF_WRITER.write_bytes (List.replicate 24 10 ++ [97]) = none :=
  ⟨rfl, rfl⟩

/-- C2: the claim says every reachable cursor has `row_position` strictly
below `BUFFER_HEIGHT` and that `new_line` never advances the row past
`BUFFER_HEIGHT - 1`.  In fact 24 newline bytes from the initial writer
leave `row_position` equal to `BUFFER_HEIGHT` = 24: the guard in
`new_line` is `row_position < BUFFER_HEIGHT`, so at row 23 it still
advances. -/
theorem cursor_row_reaches_buffer_height :
    (BUF_WRITER.write_bytes (List.replicate 24 10)).map Writer.row_position
      = some BUFFER_HEIGHT :=
  rfl

/-- C3: the claim says a non-newline byte written at `column_position` =
`BUFFER_LENGTH` lands at the post-wrap cursor position.  In the code,
`write_byte` captures `row`/`col` before the forced wrap and stores at the
stale index (row, 80), which is out of range: writing 80 bytes succeeds,
and the 81st non-newline byte makes `write_byte` return `none` (a Rust
panic) instead of placing the byte. -/
theorem forced_wrap_writes_out_of_range :
    (BUF_WRITER.write_bytes (List.replicate 80 97)).isSome = true ∧
    BUF_WRITER.write_bytes (List.replicate 80 97 ++ [98]) = none :=
  ⟨rfl, rfl⟩

/-- C4 counterexample: `clear` on a writer whose cursor is at (5, 7)
leaves the cursor at (5, 7), not (0, 0) as the claim states. -/
theorem clear_leaves_cursor_unchanged :
    (Writer.clear (Writer.mk init_grid 2 7 5)).map
        (fun w => (w.row_position, w.column_position))
      = some (5, 7) ∧
    ((5, 7) : Nat × Nat) ≠ (0, 0) :=
  ⟨by rw [clear_eq]; rfl, by decide⟩

/-- C4 (amended): after `clear()` on any Writer state, every cell of the
grid holds the blank character (byte 32) paired with the Writer's current
color; the cursor and the color are left unchanged (`clear` does not reset
the cursor to (0,0)). -/
theorem clear_blanks_grid_keeps_cursor (w : Writer) :
    ∃ w1, w.clear = some w1 ∧
      w1.row_position = w.row_position ∧
      w1.column_position = w.column_position ∧
      w1.color_code = w.color_code ∧
      ∀ r c, r < BUFFER_HEIGHT → c < BUFFER_LENGTH → w1.grid r c = (32, w.color_code) :=
  ⟨_, clear_eq w, rfl, rfl, rfl, fun r c hr hc => by
    simp only [if_pos (⟨hr, hc⟩ : r < BUFFER_HEIGHT ∧ c < BUFFER_LENGTH)]⟩

/-- C5: for all 256 valid (foreground, background) pairs, `ColorCode::new`
packs the background code in the high nibble and the foreground code in
the low nibble; each code is one of the 16 fixed 4-bit values and the
resulting byte fits in 8 bits. -/
theorem colorcode_new_packs_nibbles (fg bg : Color) :
    ColorCode.new fg bg = bg.toU8 * 16 + fg.toU8 ∧
    ColorCode.new fg bg / 16 = bg.toU8 ∧
    ColorCode.new fg bg % 16 = fg.toU8 ∧
    fg.toU8 < 16 ∧ bg.toU8 < 16 ∧ ColorCode.new fg bg < 256 := by
  cases fg <;> cases bg <;> decide

/-- C6: for every Writer state, `write_byte` of the newline byte writes no
cell: it only performs `new_line`, which keeps the grid, resets the column
to 0, and advances the row per the code's row-advance policy. -/
theorem write_byte_newline_writes_no_cell (w : Writer) :
    w.write_byte 10 = some w.new_line ∧
    w.new_line.grid = w.grid ∧
    w.new_line.column_position = 0 ∧
    w.new_line.row_position =
      (if w.row_position < BUFFER_HEIGHT then w.row_position + 1
       else w.row_position) :=
  ⟨rfl, rfl, rfl, rfl⟩

/-- C7: writing a newline-free byte sequence shorter than a row from
column 0 of a valid row succeeds, and reading that grid row back
reproduces exactly the written bytes in order, each paired with the color
that was current when it was written. -/
theorem write_row_round_trip (g : Grid) (color row : Nat) (s : List Nat)
    (hnl : ∀ b ∈ s, b ≠ 10) (hlen : s.length < BUFFER_LENGTH)
    (hrow : row < BUFFER_HEIGHT) :
    ∃ w1, (Writer.mk g color 0 row).write_bytes s = some w1 ∧
      w1.row_position = row ∧
      w1.column_position = s.length ∧
      ∀ i, i < s.length → w1.grid row i = (s.getD i 0, color) := by
  obtain ⟨g1, h1, h2⟩ := write_bytes_in_row s g color 0 row hnl (by omega) hrow
  refine ⟨_, h1, rfl, by simp, ?_⟩
  intro i hi
  show g1 row i = (s.getD i 0, color)
  rw [h2 row i, if_pos ⟨rfl, Nat.zero_le i, by simpa using hi⟩]
  simp

/-- C7 witness: the round trip evaluated on the concrete bytes [72, 105]
written at row 0 with color 2 of a blank screen. -/
theorem write_row_round_trip_witness :
    (∀ b ∈ ([72, 105] : List Nat), b ≠ 10) ∧
    ([72, 105] : List Nat).length < BUFFER_LENGTH ∧
    (0 : Nat) < BUFFER_HEIGHT ∧
    (∃ w1, (Writer.mk init_grid 2 0 0).write_bytes [72, 105] = some w1 ∧
      w1.row_position = 0 ∧
      w1.column_position = ([72, 105] : List Nat).length ∧
      ∀ i, i < ([72, 105] : List Nat).length →
        w1.grid 0 i = (([72, 105] : List Nat).getD i 0, 2)) :=
  ⟨by decide, by decide, by decide,
    write_row_round_trip init_grid 2 0 [72, 105] (by decide) (by decide) (by decide)⟩

/-- C8: `write_str` processes every byte of the string in order via
`write_byte` (it equals the in-order iteration `write_bytes`), and its
`fmt::Result` component is always the success value `Ok(())`, never an
error. -/
theorem write_str_in_order_ok (w : Writer) (s : List Nat) :
    w.write_str s = (w.write_bytes s).map (fun w1 => (w1, Except.ok ())) ∧
    ∀ p, w.write_str s = some p → p.2 = Except.ok () := by
  have h : ∀ (w : Writer), w.write_str s = (w.write_bytes s).map (fun w1 => (w1, Except.ok ())) := by
    induction s with
    | nil => intro w; rfl
    | cons b rest ih =>
      intro w
      rw [Writer.write_str, Writer.write_bytes]
      cases hwb : w.write_byte b with
      | none => rfl
      | some w1 => rw [Option.some_bind, Option.some_bind, ih w1]
  refine ⟨h w, ?_⟩
  intro p hp
  rw [h w] at hp
  cases hwbs : w.write_bytes s with
  | none => rw [hwbs] at hp; exact absurd hp (by simp)
  | some w1 =>
    rw [hwbs] at hp
    simp only [Option.map_some', Option.some_inj] at hp
    rw [← hp]

/-- C9: the default ColorCode is `ColorCode::new(Green, Black)`, the
attribute byte 0x02 (green foreground on black background). -/
theorem colorcode_default_is_green_on_black :
    ColorCode.default = ColorCode.new Color.Green Color.Black ∧
    ColorCode.default = 0x02 := by
  decide

/-- C10: `write_byte` special-cases only byte 10: every other byte, control
characters such as carriage return (13) and tab (9) included, is stored as
a literal cell at the cursor position with the current color, the column
advancing by one. -/
theorem write_byte_literal_for_non_newline (w : Writer) (b : Nat) (hb : b ≠ 10)
    (hc : w.column_position < BUFFER_LENGTH) (hr : w.row_position < BUFFER_HEIGHT) :
    w.write_byte b = some { w with
      grid := fun r c =>
        if r = w.row_position ∧ c = w.column_position then (b, w.color_code)
        else w.grid r c
      column_position := w.column_position + 1 } :=
  write_byte_in_range w b hb hc hr

/-- C10 witness: the carriage-return byte 13 and the tab byte 9 written at
the initial writer are stored as literal cells. -/
theorem write_byte_literal_for_non_newline_witness :
    ((13 : Nat) ≠ 10 ∧
     BUF_WRITER.column_position < BUFFER_LENGTH ∧
     BUF_WRITER.row_position < BUFFER_HEIGHT) ∧
    BUF_WRITER.write_byte 13 = some { BUF_WRITER with
      grid := fun r c =>
        if r = BUF_WRITER.row_position ∧ c = BUF_WRITER.column_position
        then ((13 : Nat), BUF_WRITER.color_code)
        else BUF_WRITER.grid r c
      column_position := BUF_WRITER.column_position + 1 } ∧
    BUF_WRITER.write_byte 9 = some { BUF_WRITER with
      grid := fun r c =>
        if r = BUF_WRITER.row_position ∧ c = BUF_WRITER.column_position
        then ((9 : Nat), BUF_WRITER.color_code)
        else BUF_WRITER.grid r c
      column_position := BUF_WRITER.column_position + 1 } :=
  ⟨⟨by decide, by decide, by decide⟩,
    write_byte_literal_for_non_newline BUF_WRITER 13 (by decide) (by decide) (by decide),
    write_byte_literal_for_non_newline BUF_WRITER 9 (by decide) (by decide) (by decide)⟩

end VGA
